import Mathlib

/-
Verification of the brokerage execution client in
src/tradingagents/execution/korea_investment.py.

Shallow embedding conventions:
  * Wall-clock instants (Python time.time() / datetime.now()) are modelled as
    exact rationals; Python float arithmetic is modelled by exact rational
    arithmetic (all the computations under study are additions, subtractions,
    one guarded division and comparisons, exact at the inputs considered).
  * The rate limiter queue (a deque of timestamps, oldest first) is a
    List of rationals with the head as the oldest entry.
  * HTTP interactions are modelled by oracle values: a successful response
    carries the parsed fields the code reads, a raised Python exception or a
    non-success status is an error value, mirroring exactly which code paths
    raise and which return data.
-/

namespace KoreaInvestment

/-- One eviction pass of RateLimiter.wait / get_status: the while-loop
popping from the left of the deque every timestamp t with t <= now - period. -/
def evict (period now : ℚ) (calls : List ℚ) : List ℚ :=
  calls.dropWhile (fun t => decide (t ≤ now - period))

/-- The sleep duration computed at korea_investment.py line 62:
self.calls[0] - (now - self.period) + 0.05 (the 50ms guard margin),
read off the queue after the first eviction pass; 0 when the queue is empty
(in the source that case cannot reach the sleep computation when max_calls is
at least 1). -/
def sleepTime (period : ℚ) (calls : List ℚ) (now : ℚ) : ℚ :=
  match calls with
  | [] => 0
  | h :: _ => h - (now - period) + 1 / 20

/-- RateLimiter.wait (korea_investment.py lines 46-71) as a function of the
queue and of the three successive time.time() readings the body can make:
t1 at entry, t2 after the sleep in the at-limit branch, t3 at the final
append.  The first eviction pass runs at t1; if the queue then still holds
max_calls or more entries the caller sleeps and a second eviction pass runs
at t2; finally t3 is appended. -/
def wait (maxCalls : ℕ) (period : ℚ) (calls : List ℚ) (t1 t2 t3 : ℚ) : List ℚ :=
  let c1 := evict period t1 calls
  if maxCalls ≤ c1.length then
    evict period t2 c1 ++ [t3]
  else
    c1 ++ [t3]

/-- The time.time() readings one wait() call makes. -/
structure WaitTimes where
  t1 : ℚ
  t2 : ℚ
  t3 : ℚ
deriving DecidableEq, Repr

/-- A sequence of wait() calls folded over the queue, oldest call first. -/
def runWaits (maxCalls : ℕ) (period : ℚ) (calls : List ℚ) : List WaitTimes → List ℚ
  | [] => calls
  | w :: ws => runWaits maxCalls period (wait maxCalls period calls w.t1 w.t2 w.t3) ws

/-- Sleep semantics of one wait() call at queue state calls: if the first
eviction pass leaves the queue at or over the limit, the post-sleep clock
reading t2 is at least t1 plus the computed sleep duration (time.sleep sleeps
at least the requested duration, and the duration is positive there). -/
def SleepOk (maxCalls : ℕ) (period : ℚ) (calls : List ℚ) (w : WaitTimes) : Prop :=
  maxCalls ≤ (evict period w.t1 calls).length →
    w.t1 + sleepTime period (evict period w.t1 calls) w.t1 ≤ w.t2

lemma length_evict_le (period now : ℚ) (calls : List ℚ) :
    (evict period now calls).length ≤ calls.length :=
  (List.dropWhile_sublist _).length_le

lemma wait_length_le (maxCalls : ℕ) (period : ℚ) (calls : List ℚ)
    (t1 t2 t3 : ℚ) (hk : 1 ≤ maxCalls) (hlen : calls.length ≤ maxCalls)
    (hs : SleepOk maxCalls period calls ⟨t1, t2, t3⟩) :
    (wait maxCalls period calls t1 t2 t3).length ≤ maxCalls := by
  have hs2 : maxCalls ≤ (evict period t1 calls).length →
      t1 + sleepTime period (evict period t1 calls) t1 ≤ t2 := hs
  have hc1le : (evict period t1 calls).length ≤ maxCalls :=
    le_trans (length_evict_le period t1 calls) hlen
  simp only [wait]
  by_cases hfull : maxCalls ≤ (evict period t1 calls).length
  · rw [if_pos hfull]
    -- the queue is exactly at the limit, hence nonempty
    have hlen1 : (evict period t1 calls).length = maxCalls :=
      le_antisymm hc1le hfull
    obtain ⟨h, t, hht⟩ : ∃ h t, evict period t1 calls = h :: t := by
      cases hc : evict period t1 calls with
      | nil => rw [hc] at hlen1; simp at hlen1; omega
      | cons h t => exact ⟨h, t, rfl⟩
    have hsleep := hs2 hfull
    rw [hht] at hsleep
    simp only [sleepTime] at hsleep
    -- the sleep pushes t2 past the head plus the period, so the second
    -- eviction pass drops at least the head
    have hdrop : h ≤ t2 - period := by linarith
    rw [hht]
    have heq : evict period t2 (h :: t) =
        (t).dropWhile (fun x => decide (x ≤ t2 - period)) := by
      simp [evict, List.dropWhile_cons, hdrop]
    rw [heq]
    have hlt : ((t).dropWhile (fun x => decide (x ≤ t2 - period))).length ≤ t.length :=
      (List.dropWhile_sublist _).length_le
    have htlen : t.length + 1 = maxCalls := by
      rw [hht] at hlen1; simpa using hlen1
    simp only [List.length_append, List.length_cons, List.length_nil]
    omega
  · rw [if_neg hfull]
    push_neg at hfull
    simp only [List.length_append, List.length_cons, List.length_nil]
    omega

lemma runWaits_length_le (maxCalls : ℕ) (period : ℚ) (hk : 1 ≤ maxCalls) :
    ∀ (ws : List WaitTimes) (calls : List ℚ), calls.length ≤ maxCalls →
      (∀ pre w post, ws = pre ++ w :: post →
        SleepOk maxCalls period (runWaits maxCalls period calls pre) w) →
      (runWaits maxCalls period calls ws).length ≤ maxCalls := by
  intro ws
  induction ws with
  | nil => intro calls hlen _; simpa [runWaits] using hlen
  | cons w rest ih =>
    intro calls hlen hsleep
    rw [runWaits]
    apply ih
    · apply wait_length_le maxCalls period calls w.t1 w.t2 w.t3 hk hlen
      have := hsleep [] w rest rfl
      simpa [runWaits] using this
    · intro pre w2 post hdec
      have := hsleep (w :: pre) w2 post (by rw [hdec]; rfl)
      simpa [runWaits] using this

/-- Claim C2: for every sequence of RateLimiter.wait() calls with
maxCalls = k (at least 1) and period = T, started from the empty queue and
obeying the sleep semantics (each at-limit wait sleeps at least the computed
duration before re-reading the clock), the recorded-timestamp queue never
holds more than k timestamps: after every prefix of the call sequence the
queue length is at most k.  In particular no trailing window of duration T
ever contains more than k recorded calls, since every recorded timestamp
still in the queue survived the eviction pass. -/
theorem rateLimiter_window_bound (maxCalls : ℕ) (period : ℚ)
    (ws : List WaitTimes) (hk : 1 ≤ maxCalls)
    (hsleep : ∀ pre w post, ws = pre ++ w :: post →
      SleepOk maxCalls period (runWaits maxCalls period [] pre) w) :
    (runWaits maxCalls period [] ws).length ≤ maxCalls :=
  runWaits_length_le maxCalls period hk ws [] (by simp) hsleep

/-- Witness for C2 at a concrete input: two wait() calls with maxCalls = 1,
period = 1; the second call hits the limit, sleeps past the first timestamp,
and the queue stays at length 1. -/
theorem rateLimiter_window_bound_witness :
    (runWaits 1 1 [] [⟨0, 0, 0⟩, ⟨1/2, 31/20, 31/20⟩]).length ≤ 1 := by
  apply rateLimiter_window_bound 1 1 [⟨0, 0, 0⟩, ⟨1/2, 31/20, 31/20⟩] le_rfl
  rintro (_ | ⟨x, _ | ⟨y, pre2⟩⟩) w post hdec
  · rw [List.nil_append] at hdec
    obtain ⟨rfl, -⟩ := List.cons_eq_cons.mp hdec
    intro hlim
    simp [runWaits, evict] at hlim
  · rw [List.cons_append, List.nil_append] at hdec
    obtain ⟨rfl, hdec2⟩ := List.cons_eq_cons.mp hdec
    obtain ⟨rfl, -⟩ := List.cons_eq_cons.mp hdec2
    intro _
    simp only [runWaits, wait, evict, sleepTime, List.dropWhile]
    norm_num
  · have := congrArg List.length hdec
    simp at this

/-
Access-token lifecycle (KoreaInvestmentExecutor.get_access_token,
korea_investment.py lines 200-227).  Times are rationals measured in hours,
so the one-hour renewal margin is 1 and the stored validity is 23.
The two datetime.now() readings the source makes (one for the validity
check, one when stamping the new expiry) are modelled as the same instant.
-/

/-- The token fields of the executor: self.access_token (None or a string)
and self.token_expires_at (None or an instant, in hours). -/
structure TokenState where
  accessToken : Option String
  tokenExpiresAt : Option ℚ
deriving DecidableEq, Repr

/-- Outcome of the POST to /oauth2/tokenP: status 200 carrying the parsed
optional access_token field, or a non-200 status carrying the response text. -/
inductive TokenResp where
  | httpOk (accessToken : Option String)
  | httpErr (text : String)
deriving DecidableEq, Repr

/-- The cached-token validity test at lines 207-208: Python truthiness of
self.access_token (a non-empty string) and self.token_expires_at (non-None),
and then datetime.now() strictly before token_expires_at minus one hour. -/
def tokenCacheValid (st : TokenState) (now : ℚ) : Bool :=
  match st.accessToken, st.tokenExpiresAt with
  | some tok, some expiresAt => tok != "" && decide (now < expiresAt - 1)
  | _, _ => false

/-- get_access_token as a function of the token state, the clock and the
acquisition response; returns the produced token (or the raised error text),
the new token state, and the number of token-acquisition HTTP requests made. -/
def get_access_token (st : TokenState) (now : ℚ) (resp : TokenResp) :
    Except String (Option String) × TokenState × ℕ :=
  if tokenCacheValid st now then
    (.ok st.accessToken, st, 0)
  else
    match resp with
    | .httpOk tok => (.ok tok, ⟨tok, some (now + 23)⟩, 1)
    | .httpErr text => (.error ("토큰 발급 실패: " ++ text), st, 1)

/-- Claim C3: with a cached (non-empty) token whose recorded expiry is more
than one hour away, get_access_token returns the cached token, changes no
state and performs no acquisition request; otherwise it performs exactly one
acquisition request and, when that request succeeds, caches the returned
token with expiry now + 23 hours and returns it. -/
theorem get_access_token_spec (st : TokenState) (now : ℚ) (resp : TokenResp) :
    (∀ tok expiresAt, st.accessToken = some tok → tok ≠ "" →
      st.tokenExpiresAt = some expiresAt → now < expiresAt - 1 →
      get_access_token st now resp = (.ok (some tok), st, 0)) ∧
    (tokenCacheValid st now = false →
      (get_access_token st now resp).2.2 = 1 ∧
      ∀ tok, resp = .httpOk tok →
        get_access_token st now resp = (.ok tok, ⟨tok, some (now + 23)⟩, 1)) := by
  constructor
  · intro tok expiresAt htok hne hexp hlt
    have hvalid : tokenCacheValid st now = true := by
      simp [tokenCacheValid, htok, hexp, hne, hlt]
    simp [get_access_token, hvalid, htok]
  · intro hinvalid
    constructor
    · simp only [get_access_token, hinvalid, Bool.false_eq_true, if_false]
      cases resp <;> rfl
    · intro tok hresp
      subst hresp
      simp [get_access_token, hinvalid]

/-- Witness for C3 at concrete inputs: a cached token two hours from expiry
is returned with no acquisition call, and an expired state with a successful
response acquires exactly once and stores expiry now + 23. -/
theorem get_access_token_spec_witness :
    get_access_token ⟨some "T", some 3⟩ 1 (.httpOk (some "U")) =
      (.ok (some "T"), ⟨some "T", some 3⟩, 0) ∧
    get_access_token ⟨none, none⟩ 1 (.httpOk (some "U")) =
      (.ok (some "U"), ⟨some "U", some 24⟩, 1) := by
  constructor
  · exact (get_access_token_spec ⟨some "T", some 3⟩ 1 (.httpOk (some "U"))).1
      "T" 3 rfl (by decide) rfl (by norm_num)
  · have h := (get_access_token_spec ⟨none, none⟩ 1 (.httpOk (some "U"))).2
      (by decide) |>.2 (some "U") rfl
    rw [h]
    norm_num

/-
Position monitoring (check_positions, korea_investment.py lines 540-606).
A balance line of the inquire-balance response (one element of output1) is
modelled by the fields the code reads.  In the returned entry the source
additionally truncates avg_price / current_price / profit_loss to int and
rounds profit_rate to two decimals for display; the model keeps the raw
values, which are the ones the classification uses (the display truncation
is not touched by any claim).  The reason string of the source cites 손절
(stop-loss), 익절 (take-profit) or 보유 유지 (keep holding); it is modelled
by an enumeration of those three citations.
-/

/-- One holdings line of the balance response. -/
structure BalanceItem where
  pdno : String
  prdt_name : String
  hldg_qty : Int
  pchs_avg_pric : ℚ
  prpr : ℚ
  evlu_pfls_amt : ℚ
deriving DecidableEq, Repr

/-- The action field of a check_positions entry. -/
inductive PosAction where
  | sell
  | hold
deriving DecidableEq, Repr

/-- Which rule the reason string of a check_positions entry cites. -/
inductive PosReason where
  | stopLoss
  | takeProfit
  | holdRange
deriving DecidableEq, Repr

/-- The per-position computation of check_positions (lines 572-589):
profit rate (guarded against a zero average price), action and reason. -/
def classifyPosition (stopLossPct takeProfitPct avgPrice currentPrice : ℚ) :
    ℚ × PosAction × PosReason :=
  let profitRate := if avgPrice > 0
    then ((currentPrice - avgPrice) / avgPrice) * 100
    else 0
  if profitRate ≤ stopLossPct then (profitRate, .sell, .stopLoss)
  else if profitRate ≥ takeProfitPct then (profitRate, .sell, .takeProfit)
  else (profitRate, .hold, .holdRange)

/-- One entry of the list check_positions returns. -/
structure PositionEntry where
  ticker : String
  name : String
  quantity : Int
  avgPrice : ℚ
  currentPrice : ℚ
  profitRate : ℚ
  action : PosAction
  reason : PosReason
deriving DecidableEq, Repr

/-- check_positions over an already-fetched holdings list: skip lines whose
held quantity is not positive, classify the rest in order. -/
def check_positions (stopLossPct takeProfitPct : ℚ) (holdings : List BalanceItem) :
    List PositionEntry :=
  holdings.filterMap fun item =>
    if item.hldg_qty ≤ 0 then none
    else
      let r := classifyPosition stopLossPct takeProfitPct item.pchs_avg_pric item.prpr
      some ⟨item.pdno, item.prdt_name, item.hldg_qty, item.pchs_avg_pric,
        item.prpr, r.1, r.2.1, r.2.2⟩

/-- The Sell-classified entries, as filtered by both
execute_stop_loss_take_profit (line 634) and monitor_positions (line 708). -/
def sellTargetsOf (positions : List PositionEntry) : List PositionEntry :=
  positions.filter fun p => p.action == PosAction.sell

/-- The quantities of the sell orders the auto-execution paths place: both
execute_stop_loss_take_profit with dry_run false (lines 654-658) and
monitor_positions with auto_execute (lines 726-732) call
place_order(ticker, sell, target quantity, price=0) once per Sell target.
When the balance fetch fails, check_positions returns an error entry with no
SELL action and both paths place no order, so the error case contributes an
empty quantity list. -/
def autoSellQuantities (stopLossPct takeProfitPct : ℚ)
    (balance : Except String (List BalanceItem)) : List Int :=
  match balance with
  | .error _ => []
  | .ok holdings =>
      (sellTargetsOf (check_positions stopLossPct takeProfitPct holdings)).map
        fun p => p.quantity

/-- Claim C4: every entry of check_positions carries the profit rate
computed as (currentPrice - avgPrice) / avgPrice * 100 when the average
price is positive and 0 when it is 0 (no division is attempted then), is
classified Sell exactly when the profit rate is at or below the stop-loss
threshold or at or above the take-profit threshold and Hold otherwise, and
its reason cites stop-loss for the former trigger and take-profit for the
latter (stop-loss taking precedence, per the elif chain of the source). -/
theorem check_positions_classification (stopLossPct takeProfitPct : ℚ)
    (holdings : List BalanceItem) (e : PositionEntry)
    (he : e ∈ check_positions stopLossPct takeProfitPct holdings) :
    (0 < e.avgPrice → e.profitRate = ((e.currentPrice - e.avgPrice) / e.avgPrice) * 100) ∧
    (e.avgPrice = 0 → e.profitRate = 0) ∧
    (e.action = PosAction.sell ↔ (e.profitRate ≤ stopLossPct ∨ takeProfitPct ≤ e.profitRate)) ∧
    (e.profitRate ≤ stopLossPct → e.reason = PosReason.stopLoss) ∧
    (¬ e.profitRate ≤ stopLossPct → takeProfitPct ≤ e.profitRate →
      e.reason = PosReason.takeProfit) := by
  rw [check_positions, List.mem_filterMap] at he
  obtain ⟨item, -, hitem⟩ := he
  by_cases hq : item.hldg_qty ≤ 0
  · simp [hq] at hitem
  · rw [if_neg hq] at hitem
    obtain rfl := (Option.some_inj.mp hitem).symm
    dsimp only
    simp only [classifyPosition]
    split_ifs with hpos hsl htp hsl2 htp2
    · refine ⟨fun _ => rfl, ?_, ⟨fun _ => Or.inl hsl, fun _ => rfl⟩,
        fun _ => rfl, fun h _ => absurd hsl h⟩
      intro h; exfalso; rw [h] at hpos; exact lt_irrefl 0 hpos
    · refine ⟨fun _ => rfl, ?_, ⟨fun _ => Or.inr htp, fun _ => rfl⟩,
        fun h => absurd h hsl, fun _ _ => rfl⟩
      intro h; exfalso; rw [h] at hpos; exact lt_irrefl 0 hpos
    · refine ⟨fun _ => rfl, ?_, ⟨fun h => h.elim, ?_⟩,
        fun h => absurd h hsl, fun _ h2 => absurd h2 htp⟩
      · intro h; exfalso; rw [h] at hpos; exact lt_irrefl 0 hpos
      · rintro (h | h)
        · exact absurd h hsl
        · exact absurd h htp
    · exact ⟨fun h => absurd h hpos, fun _ => rfl,
        ⟨fun _ => Or.inl hsl2, fun _ => rfl⟩, fun _ => rfl,
        fun h _ => absurd hsl2 h⟩
    · exact ⟨fun h => absurd h hpos, fun _ => rfl,
        ⟨fun _ => Or.inr htp2, fun _ => rfl⟩, fun h => absurd h hsl2,
        fun _ _ => rfl⟩
    · refine ⟨fun h => absurd h hpos, fun _ => rfl,
        ⟨fun h => h.elim, ?_⟩, fun h => absurd h hsl2,
        fun _ h2 => absurd h2 htp2⟩
      rintro (h | h)
      · exact absurd h hsl2
      · exact absurd h htp2

/-- Witness for C4 at the concrete input of the spec: average price 1000,
current price 940, thresholds -5 / +10 give profit rate -6 and a Sell
classification citing stop-loss. -/
theorem check_positions_classification_witness :
    (⟨"005930", "A", 3, 1000, 940, -6, .sell, .stopLoss⟩ : PositionEntry).profitRate =
        ((940 - 1000) / 1000) * 100 ∧
    (⟨"005930", "A", 3, 1000, 940, -6, .sell, .stopLoss⟩ : PositionEntry).action =
        PosAction.sell := by
  have heq : check_positions (-5) 10 [⟨"005930", "A", 3, 1000, 940, -180000⟩] =
      [⟨"005930", "A", 3, 1000, 940, -6, .sell, .stopLoss⟩] := by
    simp only [check_positions, classifyPosition, List.filterMap_cons, List.filterMap_nil]
    norm_num
  have hmem : (⟨"005930", "A", 3, 1000, 940, -6, .sell, .stopLoss⟩ : PositionEntry) ∈
      check_positions (-5) 10 [⟨"005930", "A", 3, 1000, 940, -180000⟩] := by
    rw [heq]; exact List.mem_singleton_self _
  have h := check_positions_classification (-5) 10
    [⟨"005930", "A", 3, 1000, 940, -180000⟩]
    ⟨"005930", "A", 3, 1000, 940, -6, .sell, .stopLoss⟩ hmem
  refine ⟨?_, ?_⟩
  · have := h.1 (by norm_num)
    simpa using this
  · exact (h.2.2.1).mpr (Or.inl (by norm_num))

/-- Claim C10: every entry of check_positions has a strictly positive held
quantity (non-positive balance lines are skipped before classification), so
neither auto-execution path — execute_stop_loss_take_profit with dry_run
false, or monitor_positions with auto_execute — ever places a sell order
with quantity 0. -/
theorem check_positions_quantity_pos (stopLossPct takeProfitPct : ℚ)
    (holdings : List BalanceItem) (balance : Except String (List BalanceItem)) :
    (∀ e ∈ check_positions stopLossPct takeProfitPct holdings, 0 < e.quantity) ∧
    (∀ q ∈ autoSellQuantities stopLossPct takeProfitPct balance, 0 < q) := by
  have hbase : ∀ (hs : List BalanceItem) (e : PositionEntry),
      e ∈ check_positions stopLossPct takeProfitPct hs → 0 < e.quantity := by
    intro hs e he
    rw [check_positions, List.mem_filterMap] at he
    obtain ⟨item, -, hitem⟩ := he
    by_cases hq : item.hldg_qty ≤ 0
    · simp [hq] at hitem
    · rw [if_neg hq] at hitem
      obtain rfl := (Option.some_inj.mp hitem).symm
      dsimp only
      omega
  refine ⟨fun e he => hbase holdings e he, ?_⟩
  intro q hq
  cases balance with
  | error msg => simp [autoSellQuantities] at hq
  | ok hs =>
    simp only [autoSellQuantities, List.mem_map] at hq
    obtain ⟨p, hp, rfl⟩ := hq
    have hp2 : p ∈ check_positions stopLossPct takeProfitPct hs :=
      List.mem_of_mem_filter hp
    exact hbase hs p hp2

/-- Witness for C10 at a concrete input: the single entry a one-line balance
produces has quantity 3, and the theorem applied to it yields positivity. -/
theorem check_positions_quantity_pos_witness :
    (0 : Int) <
      (⟨"005930", "A", 3, 1000, 940, -6, .sell, .stopLoss⟩ : PositionEntry).quantity := by
  have heq : check_positions (-5) 10 [⟨"005930", "A", 3, 1000, 940, -180000⟩] =
      [⟨"005930", "A", 3, 1000, 940, -6, .sell, .stopLoss⟩] := by
    simp only [check_positions, classifyPosition, List.filterMap_cons, List.filterMap_nil]
    norm_num
  have hmem : (⟨"005930", "A", 3, 1000, 940, -6, .sell, .stopLoss⟩ : PositionEntry) ∈
      check_positions (-5) 10 [⟨"005930", "A", 3, 1000, 940, -180000⟩] := by
    rw [heq]; exact List.mem_singleton_self _
  exact (check_positions_quantity_pos (-5) 10 [⟨"005930", "A", 3, 1000, 940, -180000⟩]
    (.ok [⟨"005930", "A", 3, 1000, 940, -180000⟩])).1 _ hmem

/-
Decision execution (KoreaInvestmentExecutor.execute, korea_investment.py
lines 402-487).  The remote interactions of one execute call are an oracle
environment: each field carries either the parsed value the code reads from
a successful call or, as an error, the text of the Python exception the call
raises.  place_order itself never raises for a non-2xx order response or a
brokerage rejection — those come back as a returned outcome — but the token
acquisition, the hashkey call and the network layer inside it can raise,
which the error side of its oracle models.  The network operations an
execute call performs are recorded in order; placeOrderOp stands for the
whole place_order round trip (token check, hashkey call, order POST).
-/

/-- The dictionary place_order returns (lines 375-400): rt_cd 0 is success
with an order number, any other rt_cd is a brokerage rejection carrying
msg_cd and msg1, and a non-2xx HTTP status carries the response text. -/
inductive PlaceOutcome where
  | success (orderNo : String)
  | rejected (errorCode : String) (errorMsg : String)
  | httpFailed (text : String)
deriving DecidableEq, Repr

/-- Oracle environment for one execute call. -/
structure ExecEnv where
  priceResp : Except String ℚ
  buyableQty : Except String Int
  balanceItems : Except String (List BalanceItem)
  placeOrder : String → String → Int → Int → Except String PlaceOutcome

/-- The result dictionary of execute, by shape. -/
inductive ExecResult where
  | holdResult (ticker : String)
  | orderPlaced (orderType ticker : String) (quantity price : Int) (outcome : PlaceOutcome)
  | insufficientBuy (ticker : String)
  | noHoldings (ticker : String)
  | unknownDecision (decision : String)
  | exceptionCaught (msg : String)
deriving DecidableEq, Repr

/-- One outbound network interaction of execute, in program order. -/
inductive NetOp where
  | fetchPrice (ticker : String)
  | fetchBuyable (ticker : String)
  | fetchBalance
  | placeOrderOp (orderType ticker : String) (quantity price : Int)
deriving DecidableEq, Repr

/-- Python str.upper restricted to the ASCII letters that can occur in a
decision string. -/
def pyUpper (s : String) : String :=
  String.mk (s.data.map Char.toUpper)

/-- Python str.zfill(6): left-pad with zeros to six characters. -/
def zfill6 (s : String) : String :=
  String.mk (List.replicate (6 - s.data.length) '0') ++ s

/-- The holdings scan of the SELL branch (lines 459-462): the hldg_qty of
the first balance line whose pdno equals the zero-filled ticker, 0 when no
line matches. -/
def lookupHolding (holdings : List BalanceItem) (pdno6 : String) : Int :=
  match holdings.find? (fun it => it.pdno == pdno6) with
  | some it => it.hldg_qty
  | none => 0

/-- The shared tail of the BUY branch (lines 442-452): place the order when
the quantity is positive, otherwise report no buyable quantity. -/
def buyStep (env : ExecEnv) (ticker : String) (q price : Int)
    (ops : List NetOp) : ExecResult × List NetOp :=
  if 0 < q then
    match env.placeOrder "buy" ticker q price with
    | .error e => (.exceptionCaught e, ops ++ [.placeOrderOp "buy" ticker q price])
    | .ok out => (.orderPlaced "buy" ticker q price out,
        ops ++ [.placeOrderOp "buy" ticker q price])
  else
    (.insufficientBuy ticker, ops)

/-- The shared tail of the SELL branch (lines 464-474): place the order when
the quantity is positive, otherwise report nothing to sell. -/
def sellStep (env : ExecEnv) (ticker : String) (q price : Int)
    (ops : List NetOp) : ExecResult × List NetOp :=
  if 0 < q then
    match env.placeOrder "sell" ticker q price with
    | .error e => (.exceptionCaught e, ops ++ [.placeOrderOp "sell" ticker q price])
    | .ok out => (.orderPlaced "sell" ticker q price out,
        ops ++ [.placeOrderOp "sell" ticker q price])
  else
    (.noHoldings ticker, ops)

/-- KoreaInvestmentExecutor.execute: uppercase the decision; HOLD returns at
once with no network interaction; otherwise fetch the current price (a
raised fetch error is caught and reported), then dispatch on BUY / SELL with
quantity auto-resolution, and report an unknown decision otherwise. -/
def execute (env : ExecEnv) (ticker decision : String)
    (quantity price : Int) : ExecResult × List NetOp :=
  let d := pyUpper decision
  if d = "HOLD" then
    (.holdResult ticker, [])
  else
    match env.priceResp with
    | .error e => (.exceptionCaught e, [.fetchPrice ticker])
    | .ok _ =>
      if d = "BUY" then
        if quantity = 0 then
          match env.buyableQty with
          | .error e => (.exceptionCaught e, [.fetchPrice ticker, .fetchBuyable ticker])
          | .ok maxQty =>
              buyStep env ticker (min maxQty 10) price
                [.fetchPrice ticker, .fetchBuyable ticker]
        else
          buyStep env ticker quantity price [.fetchPrice ticker]
      else if d = "SELL" then
        if quantity = 0 then
          match env.balanceItems with
          | .error e => (.exceptionCaught e, [.fetchPrice ticker, .fetchBalance])
          | .ok holdings =>
              sellStep env ticker (lookupHolding holdings (zfill6 ticker)) price
                [.fetchPrice ticker, .fetchBalance]
        else
          sellStep env ticker quantity price [.fetchPrice ticker]
      else
        (.unknownDecision d, [.fetchPrice ticker])

lemma pyUpper_HOLD : pyUpper "HOLD" = "HOLD" := rfl

lemma pyUpper_BUY : pyUpper "BUY" = "BUY" := rfl

lemma pyUpper_SELL : pyUpper "SELL" = "SELL" := rfl

/-- Claim C6: execute with decision HOLD returns the HOLD result and
performs no network interaction at all — in particular no rate-limiter
timestamp is recorded and no token check or acquisition happens, since in
this client those occur only inside the recorded network operations. -/
theorem execute_hold_no_network (env : ExecEnv) (ticker : String)
    (quantity price : Int) :
    execute env ticker "HOLD" quantity price = (.holdResult ticker, []) := by
  simp [execute, pyUpper_HOLD]

/-- Claim C5: execute with decision BUY and quantity 0, after a successful
price fetch and buyable-quantity query, resolves the order quantity to
min(buyable, 10); a non-positive resolved quantity fails with the
insufficient-buying-power result and performs no order placement, and a
positive one leads to exactly one buy order placement for that quantity,
whose returned outcome becomes the result. -/
theorem execute_buy_auto_quantity (env : ExecEnv) (ticker : String)
    (price : Int) (p : ℚ) (maxQty : Int)
    (hp : env.priceResp = .ok p) (hb : env.buyableQty = .ok maxQty) :
    (min maxQty 10 ≤ 0 →
      execute env ticker "BUY" 0 price =
        (.insufficientBuy ticker, [.fetchPrice ticker, .fetchBuyable ticker])) ∧
    (0 < min maxQty 10 →
      (execute env ticker "BUY" 0 price).2 =
        [.fetchPrice ticker, .fetchBuyable ticker,
          .placeOrderOp "buy" ticker (min maxQty 10) price] ∧
      ∀ out, env.placeOrder "buy" ticker (min maxQty 10) price = .ok out →
        (execute env ticker "BUY" 0 price).1 =
          .orderPlaced "buy" ticker (min maxQty 10) price out) := by
  have hexec : execute env ticker "BUY" 0 price =
      buyStep env ticker (min maxQty 10) price
        [.fetchPrice ticker, .fetchBuyable ticker] := by
    simp [execute, pyUpper_BUY, hp, hb]
  constructor
  · intro hle
    rw [hexec, buyStep, if_neg (by omega)]
  · intro hpos
    rw [hexec, buyStep, if_pos hpos]
    cases hpo : env.placeOrder "buy" ticker (min maxQty 10) price with
    | error e => exact ⟨rfl, fun out hout => Except.noConfusion hout⟩
    | ok out0 => exact ⟨rfl, fun out hout => by
        obtain rfl := Except.ok.inj hout
        rfl⟩

/-- Witness for C5 at the concrete input of the spec: a buyable amount of 37
resolves to quantity 10 and places a buy order for 10 shares. -/
theorem execute_buy_auto_quantity_witness :
    (execute ⟨.ok 70000, .ok 37, .ok [], fun _ _ _ _ => .ok (.success "42")⟩
        "005930" "BUY" 0 0).1 =
      .orderPlaced "buy" "005930" 10 0 (.success "42") := by
  have h := (execute_buy_auto_quantity
    ⟨.ok 70000, .ok 37, .ok [], fun _ _ _ _ => .ok (.success "42")⟩
    "005930" 0 70000 37 rfl rfl).2 (by norm_num)
  exact h.2 (.success "42") rfl

/-- Claim C7: execute with decision SELL and quantity 0, after a successful
price fetch and balance fetch, resolves the quantity to the held quantity of
the first balance line matching the zero-filled ticker; when no line matches
or the held quantity is not positive it fails with the no-holdings result
and performs no order placement, and when the held quantity is positive it
performs exactly one sell order placement for the entire held quantity. -/
theorem execute_sell_auto_quantity (env : ExecEnv) (ticker : String)
    (price : Int) (p : ℚ) (holdings : List BalanceItem)
    (hp : env.priceResp = .ok p) (hb : env.balanceItems = .ok holdings) :
    (lookupHolding holdings (zfill6 ticker) ≤ 0 →
      execute env ticker "SELL" 0 price =
        (.noHoldings ticker, [.fetchPrice ticker, .fetchBalance])) ∧
    (0 < lookupHolding holdings (zfill6 ticker) →
      (execute env ticker "SELL" 0 price).2 =
        [.fetchPrice ticker, .fetchBalance,
          .placeOrderOp "sell" ticker (lookupHolding holdings (zfill6 ticker)) price] ∧
      ∀ out, env.placeOrder "sell" ticker (lookupHolding holdings (zfill6 ticker)) price
          = .ok out →
        (execute env ticker "SELL" 0 price).1 =
          .orderPlaced "sell" ticker (lookupHolding holdings (zfill6 ticker)) price out) := by
  have hexec : execute env ticker "SELL" 0 price =
      sellStep env ticker (lookupHolding holdings (zfill6 ticker)) price
        [.fetchPrice ticker, .fetchBalance] := by
    simp [execute, pyUpper_SELL, hp, hb]
  constructor
  · intro hle
    rw [hexec, sellStep, if_neg (by omega)]
  · intro hpos
    rw [hexec, sellStep, if_pos hpos]
    cases hpo : env.placeOrder "sell" ticker (lookupHolding holdings (zfill6 ticker)) price with
    | error e => exact ⟨rfl, fun out hout => Except.noConfusion hout⟩
    | ok out0 => exact ⟨rfl, fun out hout => by
        obtain rfl := Except.ok.inj hout
        rfl⟩

/-- Witness for C7 at concrete inputs: with no matching holding the result
is the no-holdings failure with no order placement; with a matching line of
five held shares a sell order for all five is placed. -/
theorem execute_sell_auto_quantity_witness :
    execute ⟨.ok 70000, .ok 0, .ok [], fun _ _ _ _ => .ok (.success "42")⟩
        "005930" "SELL" 0 0 =
      (.noHoldings "005930", [.fetchPrice "005930", .fetchBalance]) ∧
    (execute ⟨.ok 70000, .ok 0, .ok [⟨"005930", "A", 5, 1000, 940, 0⟩],
        fun _ _ _ _ => .ok (.success "42")⟩ "005930" "SELL" 0 0).1 =
      .orderPlaced "sell" "005930" 5 0 (.success "42") := by
  constructor
  · exact (execute_sell_auto_quantity
      ⟨.ok 70000, .ok 0, .ok [], fun _ _ _ _ => .ok (.success "42")⟩
      "005930" 0 70000 [] rfl rfl).1 (by decide)
  · have h := (execute_sell_auto_quantity
      ⟨.ok 70000, .ok 0, .ok [⟨"005930", "A", 5, 1000, 940, 0⟩],
        fun _ _ _ _ => .ok (.success "42")⟩
      "005930" 0 70000 [⟨"005930", "A", 5, 1000, 940, 0⟩] rfl rfl).2
    have h5 : lookupHolding [⟨"005930", "A", 5, 1000, 940, 0⟩] (zfill6 "005930") = 5 := by
      decide
    rw [h5] at h
    exact (h (by norm_num)).2 (.success "42") rfl

/-- The concrete environment refuting C9 as universally stated: the current
price fetch raises. -/
def unknownDecisionEnvCE : ExecEnv :=
  ⟨.error "boom", .ok 0, .ok [], fun _ _ _ _ => .ok (.success "0")⟩

/-- Counterexample to claim C9 as stated: with a decision string other than
BUY, SELL, HOLD the source still fetches the current price before reaching
the unknown-decision branch, so when that fetch raises, execute fails with
the caught fetch error, not with the unknown-decision error. -/
theorem execute_unknown_decision_counterexample :
    (execute unknownDecisionEnvCE "000001" "FOO" 0 0).1 ≠
        ExecResult.unknownDecision "FOO" ∧
    (execute unknownDecisionEnvCE "000001" "FOO" 0 0).1 =
        ExecResult.exceptionCaught "boom" := by
  constructor
  · decide
  · decide

/-- Claim C9 as amended: for a decision string other than BUY, SELL and HOLD
after uppercasing, execute places no order; and whenever the current-price
fetch succeeds, it fails with the unknown-decision result naming the
uppercased decision (when the fetch raises it fails with that raised error
instead). -/
theorem execute_unknown_decision (env : ExecEnv) (ticker decision : String)
    (quantity price : Int)
    (hbuy : pyUpper decision ≠ "BUY") (hsell : pyUpper decision ≠ "SELL")
    (hhold : pyUpper decision ≠ "HOLD") :
    (∀ p, env.priceResp = .ok p →
      execute env ticker decision quantity price =
        (.unknownDecision (pyUpper decision), [.fetchPrice ticker])) ∧
    (∀ orderType tk q pr,
      NetOp.placeOrderOp orderType tk q pr ∉
        (execute env ticker decision quantity price).2) := by
  rw [execute]
  simp only [if_neg hhold]
  cases hp : env.priceResp with
  | error e =>
    constructor
    · intro p hp2; exact Except.noConfusion hp2
    · intro orderType tk q pr
      simp
  | ok p0 =>
    constructor
    · intro p _
      simp [if_neg hbuy, if_neg hsell]
    · intro orderType tk q pr
      simp [if_neg hbuy, if_neg hsell]

/-- Witness for C9 (amended) at concrete inputs: decision foo (lowercase,
exercising the case-insensitive comparison) with a successful price fetch
yields the unknown-decision result naming FOO and a single price fetch as
the only network operation. -/
theorem execute_unknown_decision_witness :
    execute ⟨.ok 100, .ok 0, .ok [], fun _ _ _ _ => .ok (.success "0")⟩
        "000001" "foo" 0 0 =
      (.unknownDecision "FOO", [.fetchPrice "000001"]) :=
  (execute_unknown_decision
    ⟨.ok 100, .ok 0, .ok [], fun _ _ _ _ => .ok (.success "0")⟩
    "000001" "foo" 0 0 (by decide) (by decide) (by decide)).1 100 rfl

/-
Monitoring loop control (monitor_positions, korea_investment.py lines
694-743).  The loop counter starts at 0; the guard is
max_iterations == 0 or iteration < max_iterations; the body increments the
counter; the trailing sleep runs under the same guard re-evaluated after the
increment.  The loop is modelled with explicit fuel: the result is the final
counter paired with the number of sleeps performed when the guard fails
within the given fuel, and none when the fuel is exhausted first, so
non-termination of the source loop is the statement that every fuel yields
none. -/
def monitorLoop (maxIterations fuel iteration sleeps : ℕ) : Option (ℕ × ℕ) :=
  match fuel with
  | 0 => none
  | f + 1 =>
    if maxIterations = 0 ∨ iteration < maxIterations then
      monitorLoop maxIterations f (iteration + 1)
        (if maxIterations = 0 ∨ iteration + 1 < maxIterations then sleeps + 1 else sleeps)
    else
      some (iteration, sleeps)

lemma monitorLoop_bounded (maxIterations : ℕ) (hpos : 0 < maxIterations) :
    ∀ (fuel iteration sleeps : ℕ), iteration ≤ maxIterations →
      maxIterations - iteration < fuel →
      monitorLoop maxIterations fuel iteration sleeps =
        some (maxIterations, sleeps + (maxIterations - 1 - iteration)) := by
  intro fuel
  induction fuel with
  | zero => intro iteration sleeps _ hf; omega
  | succ f ih =>
    intro iteration sleeps hle hf
    rw [monitorLoop]
    by_cases hlt : iteration < maxIterations
    · rw [if_pos (Or.inr hlt)]
      by_cases hlt2 : iteration + 1 < maxIterations
      · rw [if_pos (Or.inr hlt2)]
        rw [ih (iteration + 1) (sleeps + 1) (by omega) (by omega)]
        simp only [Option.some.injEq, Prod.mk.injEq, true_and]
        omega
      · rw [if_neg (by omega)]
        rw [ih (iteration + 1) sleeps (by omega) (by omega)]
        simp only [Option.some.injEq, Prod.mk.injEq, true_and]
        omega
    · rw [if_neg (by omega)]
      simp only [Option.some.injEq, Prod.mk.injEq]
      constructor <;> omega

lemma monitorLoop_unbounded :
    ∀ (fuel iteration sleeps : ℕ), monitorLoop 0 fuel iteration sleeps = none := by
  intro fuel
  induction fuel with
  | zero => intro iteration sleeps; rfl
  | succ f ih =>
    intro iteration sleeps
    rw [monitorLoop, if_pos (Or.inl rfl)]
    exact ih (iteration + 1) _

/-- Claim C8: with max_iterations = n positive, monitor_positions performs
exactly n iterations and terminates (any fuel beyond n suffices and the
final counter is n), sleeping between consecutive iterations only — n - 1
sleeps, none after the final iteration; with max_iterations = 0 the loop
guard never fails: the loop never terminates on its own (every fuel runs
out). -/
theorem monitor_positions_iterations (n fuel : ℕ) :
    (0 < n → n < fuel → monitorLoop n fuel 0 0 = some (n, n - 1)) ∧
    (∀ f i s, monitorLoop 0 f i s = none) := by
  constructor
  · intro hpos hfuel
    rw [monitorLoop_bounded n hpos fuel 0 0 (by omega) (by omega)]
    simp only [Option.some.injEq, Prod.mk.injEq, true_and]
    omega
  · exact monitorLoop_unbounded

/-- Witness for C8 at concrete inputs: three iterations with fuel four end
with counter 3 and two sleeps, and the unbounded loop yields none at fuel
five. -/
theorem monitor_positions_iterations_witness :
    monitorLoop 3 4 0 0 = some (3, 2) ∧ monitorLoop 0 5 7 1 = none :=
  ⟨(monitor_positions_iterations 3 4).1 (by decide) (by decide),
   (monitor_positions_iterations 3 4).2 5 7 1⟩

/-
Auto-execution inside one monitoring iteration (monitor_positions lines
720-734).  With auto_execute set, the body runs
for target in sell_targets: result = self.place_order(...)
with no per-ticker try block: an exception raised by place_order (network
failure, token-acquisition failure — the error side of the oracle)
propagates to the per-iteration except handler, skipping the remaining
targets of that iteration; a returned failure dictionary (brokerage
rejection or non-2xx order response — the ok side carrying a rejected or
httpFailed outcome) only affects the printed status and the loop moves to
the next target.  autoExecAttempts records, in order, the tickers for which
a place_order call is started. -/
def autoExecAttempts (po : String → Int → Except String PlaceOutcome) :
    List PositionEntry → List String
  | [] => []
  | t :: rest =>
    t.ticker :: (match po t.ticker t.quantity with
      | .ok _ => autoExecAttempts po rest
      | .error _ => [])

/-- The sell targets of the counterexample iteration: two Sell-classified
positions. -/
def sellTargetsCE : List PositionEntry :=
  [⟨"000001", "A", 3, 1000, 940, -6, .sell, .stopLoss⟩,
   ⟨"000002", "B", 2, 1000, 1200, 20, .sell, .takeProfit⟩]

/-- The order oracle of the counterexample: placing the first ticker's order
raises a transport error; any other order returns success. -/
def placeOrderCE (ticker : String) (_q : Int) : Except String PlaceOutcome :=
  if ticker = "000001" then .error "ConnectionError" else .ok (.success "1")

/-- Counterexample to claim C1 as stated: a transport failure that raises —
here a connection error on the first Sell ticker — aborts the for loop over
sell targets via the per-iteration exception handler, so the second Sell
ticker is never attempted in that iteration. -/
theorem monitor_auto_execute_counterexample :
    autoExecAttempts placeOrderCE sellTargetsCE ≠
      sellTargetsCE.map PositionEntry.ticker ∧
    autoExecAttempts placeOrderCE sellTargetsCE = ["000001"] := by
  constructor
  · decide
  · decide

/-- Claim C1 as amended: a failure that place_order reports as a returned
result — a brokerage order rejection or a non-2xx HTTP response on the order
call — does not prevent a sell order from being attempted for each remaining
Sell-classified ticker of the iteration: when every target's place_order
call returns (rather than raises), every Sell ticker is attempted, whatever
the returned outcomes are.  Only a raised exception (network failure, token
acquisition failure) cuts the iteration short. -/
theorem monitor_auto_execute_isolation
    (po : String → Int → Except String PlaceOutcome)
    (targets : List PositionEntry)
    (hret : ∀ t ∈ targets, ∃ out, po t.ticker t.quantity = .ok out) :
    autoExecAttempts po targets = targets.map PositionEntry.ticker := by
  induction targets with
  | nil => rfl
  | cons t rest ih =>
    obtain ⟨out, hout⟩ := hret t (List.mem_cons_self t rest)
    rw [autoExecAttempts, hout, List.map_cons]
    rw [ih (fun t2 ht2 => hret t2 (List.mem_cons_of_mem t ht2))]

/-- Witness for C1 (amended) at a concrete input: both orders come back as
brokerage rejections, yet both tickers are attempted. -/
theorem monitor_auto_execute_isolation_witness :
    autoExecAttempts (fun _ _ => .ok (.rejected "APBK0919" "rejected")) sellTargetsCE =
      ["000001", "000002"] := by
  rw [monitor_auto_execute_isolation (fun _ _ => .ok (.rejected "APBK0919" "rejected"))
    sellTargetsCE (fun t _ => ⟨.rejected "APBK0919" "rejected", rfl⟩)]
  rfl

end KoreaInvestment
